import Mathlib

set_option maxHeartbeats 1000000

deriving instance DecidableEq for Except

namespace Wuw

/-- Whitespace test matching Go unicode.IsSpace on the ASCII range. -/
def goIsSpace (c : Char) : Bool :=
  c == ' ' || c == '\t' || c == '\n' || c == '\r' || c == Char.ofNat 11 || c == Char.ofNat 12

/-- Helper for fields: splits a character list on runs of whitespace.
The second argument accumulates the current field in reverse. -/
def fieldsAux : List Char → List Char → List (List Char)
  | [], cur => if cur.isEmpty then [] else [cur.reverse]
  | c :: cs, cur =>
    if goIsSpace c then
      if cur.isEmpty then fieldsAux cs [] else cur.reverse :: fieldsAux cs []
    else fieldsAux cs (c :: cur)

/-- Model of strings.Fields: the whitespace-separated tokens of a line. -/
def fields (s : String) : List String :=
  (fieldsAux s.data []).map String.mk

/-- Model of strings.TrimSpace on the ASCII range. -/
def trimSpace (s : String) : String :=
  String.mk (((s.data.dropWhile goIsSpace).reverse.dropWhile goIsSpace).reverse)

/-- Helper for strContains: does pat occur as a contiguous sublist of the argument? -/
def containsAux (pat : List Char) : List Char → Bool
  | [] => pat.isEmpty
  | c :: cs => pat.isPrefixOf (c :: cs) || containsAux pat cs

/-- Model of strings.Contains. -/
def strContains (s pat : String) : Bool := containsAux pat.data s.data

/-- Model of the Go slice expression imp[1:len(imp)-1]; callers guard length ≥ 2,
since for length < 2 the Go expression panics instead of evaluating. -/
def sliceInner (s : String) : String :=
  String.mk ((s.data.drop 1).dropLast)

/-- The only read failure a list-of-lines source can produce: end of input.
bufio.Reader.ReadString surfaces a clean end of input as a non-nil error,
and ParseFileForImports treats every non-nil read error the same way. -/
inductive ReadErr where
  | eof
deriving DecidableEq

/-- The observable outcome of the Go pair return ([]string, error) of
ParseFileForImports, plus the possibility of a runtime panic
(index or slice out of range). -/
inductive GoRes where
  | ret (imports : List String) (err : Option ReadErr)
  | panicked
deriving DecidableEq

/-- Control position of the scanning loops of ParseFileForImports:
top n is the outer loop with linesWithoutImport = n; blk n is the inner
block-import loop, remembering the outer counter n. -/
inductive Mode where
  | top (n : Nat)
  | blk (n : Nat)

/-- Embedding of the loops of ParseFileForImports (src/main.go lines 138-181),
one step per line read. An empty remaining source means the next ReadString
fails, and the code returns (nil, err) from either loop. Blank lines and
single-import lines reach the outer loop again via continue, so they skip
the threshold test; the test runs only after a block or after an
uninformative non-blank line. -/
def scanGo : List String → Mode → List String → GoRes
  | [], _, _ => .ret [] (some .eof)
  | l :: ls, .top n, acc =>
    if trimSpace l = "" then scanGo ls (.top (n + 1)) acc
    else if strContains l "import \"" then
      match fields l with
      | _ :: p :: _ => scanGo ls (.top n) (acc ++ [p])
      | _ => .panicked
    else if strContains l "import (" then scanGo ls (.blk n) acc
    else if n + 1 ≥ 5 then .ret acc none
    else scanGo ls (.top (n + 1)) acc
  | l :: ls, .blk n, acc =>
    if trimSpace l = ")" then
      if n ≥ 5 then .ret acc none else scanGo ls (.top n) acc
    else if trimSpace l = "" then scanGo ls (.blk n) acc
    else
      match fields l with
      | [] => .panicked
      | [_, p] =>
        if 2 ≤ p.data.length then scanGo ls (.blk n) (acc ++ [sliceInner p]) else .panicked
      | a :: _ =>
        if 2 ≤ a.data.length then scanGo ls (.blk n) (acc ++ [sliceInner a]) else .panicked

/-- Embedding of ParseFileForImports (src/main.go): scan the given lines
starting in the outer loop with counter 0 and no imports. -/
def ParseFileForImports (lines : List String) : GoRes :=
  scanGo lines (Mode.top 0) []

/-- Embedding of the part_000 variant of the scanning loops: identical to
scanGo except that the single-import branch appends
split[1][1:len(split[1])-1], stripping the quote characters (and panicking
when the token is shorter than 2 bytes). -/
def scanGoV0 : List String → Mode → List String → GoRes
  | [], _, _ => .ret [] (some .eof)
  | l :: ls, .top n, acc =>
    if trimSpace l = "" then scanGoV0 ls (.top (n + 1)) acc
    else if strContains l "import \"" then
      match fields l with
      | _ :: p :: _ =>
        if 2 ≤ p.data.length then scanGoV0 ls (.top n) (acc ++ [sliceInner p]) else .panicked
      | _ => .panicked
    else if strContains l "import (" then scanGoV0 ls (.blk n) acc
    else if n + 1 ≥ 5 then .ret acc none
    else scanGoV0 ls (.top (n + 1)) acc
  | l :: ls, .blk n, acc =>
    if trimSpace l = ")" then
      if n ≥ 5 then .ret acc none else scanGoV0 ls (.top n) acc
    else if trimSpace l = "" then scanGoV0 ls (.blk n) acc
    else
      match fields l with
      | [] => .panicked
      | [_, p] =>
        if 2 ≤ p.data.length then scanGoV0 ls (.blk n) (acc ++ [sliceInner p]) else .panicked
      | a :: _ =>
        if 2 ≤ a.data.length then scanGoV0 ls (.blk n) (acc ++ [sliceInner a]) else .panicked

/-- Embedding of ParseFileForImports in the part_000 variant. -/
def ParseFileForImportsV0 (lines : List String) : GoRes :=
  scanGoV0 lines (Mode.top 0) []

/-- Embedding of FilterDependencies (src/main.go lines 120-132). The call
build.Import(d, "", build.FindOnly) is an external toolchain lookup and is
injected as lookup: some g means err == nil with pkg.Goroot = g, none
means err != nil. The external flag is accepted and unused, as in the
source. -/
def FilterDependencies (lookup : String → Option Bool) :
    List String → Bool → Bool → List String
  | [], _, _ => []
  | d :: ds, external, noStd =>
    if noStd && (strContains d "golang.org/x/" || (lookup d).getD false) then
      FilterDependencies lookup ds external noStd
    else
      d :: FilterDependencies lookup ds external noStd

/-- A source file: its path and its newline-terminated lines, in order.
Reading a line from a file with no lines left fails. -/
structure GoFile where
  name : String
  lines : List String
deriving DecidableEq

/-- Embedding of the Directory struct: a directory path and its opened files. -/
structure Directory where
  name : String
  files : List GoFile
deriving DecidableEq

/-- The error values GetPackageName can return: the propagated ReadString
failure, the malformed-package-line error (carrying the offending line and
file name), the could-not-find-a-package error and the
more-than-one-package error (each carrying the directory name). -/
inductive PkgErr where
  | readFail
  | malformed (line : String) (file : String)
  | noPackage (dir : String)
  | conflict (dir : String)
deriving DecidableEq

/-- The code after the loop of GetPackageName (src/main.go lines 206-214):
inspect the seen set and the last package name. -/
def finishPkg (dname : String) (seen : List String) (pn : String) :
    Except PkgErr String :=
  if seen.length = 0 then .error (.noPackage dname)
  else if seen.length = 1 then .ok pn
  else .error (.conflict dname)

/-- Model of the map insertion into seen: the seen list holds the distinct
package names observed so far. -/
def insertSeen (seen : List String) (nm : String) : List String :=
  if nm ∈ seen then seen else nm :: seen

/-- The loop of GetPackageName (src/main.go lines 190-204): read the first
line of each file, require exactly the two fields package and a name,
record the name, remember the last one. -/
def getPkgAux (dname : String) : List GoFile → List String → String → Except PkgErr String
  | [], seen, pn => finishPkg dname seen pn
  | f :: fsRest, seen, _ =>
    match f.lines with
    | [] => .error .readFail
    | l :: _ =>
      match fields l with
      | [kw, nm] =>
        if kw = "package" then getPkgAux dname fsRest (insertSeen seen nm) nm
        else .error (.malformed l f.name)
      | _ => .error (.malformed l f.name)

/-- Embedding of GetPackageName (src/main.go lines 186-215). -/
def GetPackageName (d : Directory) : Except PkgErr String :=
  getPkgAux d.name d.files [] ""

/-- A directory entry as returned by os.ReadDir: name and directory flag. -/
structure DirEntry where
  name : String
  isDir : Bool
deriving DecidableEq

/-- Model of strings.HasPrefix. -/
def strStarts (s pre : String) : Bool := pre.data.isPrefixOf s.data

/-- Helper for filepathExt: walks the reversed character list, stopping at a
path separator, returning the reversed-extension characters restored to
order once the last dot is found. -/
def extRevAux : List Char → List Char → List Char
  | _, [] => []
  | seen, c :: cs =>
    if c = '/' then []
    else if c = '.' then c :: seen
    else extRevAux (c :: seen) cs

/-- Model of filepath.Ext: the suffix beginning at the final dot in the final
path element, empty when there is none. -/
def filepathExt (s : String) : String :=
  String.mk (extRevAux [] s.data.reverse)

/-- Embedding of GetGoFiles (src/main.go lines 217-237). filepath.Join of the
directory name and entry name is modelled as slash concatenation, which
agrees with Join on the clean non-empty names used here. -/
def GetGoFiles (dir_name : String) : List DirEntry → List String
  | [] => []
  | f :: fsRest =>
    if strStarts f.name "." then GetGoFiles dir_name fsRest
    else if f.isDir then GetGoFiles dir_name fsRest
    else
      if filepathExt (dir_name ++ "/" ++ f.name) = ".go" then
        (dir_name ++ "/" ++ f.name) :: GetGoFiles dir_name fsRest
      else GetGoFiles dir_name fsRest

/-- The result record built per directory (src/main.go lines 24-27, 100). -/
structure Package where
  name : String
  deps : List String
deriving DecidableEq

/-- The error values collected into the errs slice of main: the
no-go-files error, a failed os.Open (carrying the path), a GetPackageName
error, and a propagated ParseFileForImports read error. -/
inductive MainErr where
  | noGoFiles (d : String)
  | openFail (path : String)
  | pkg (e : PkgErr)
  | importRead
deriving DecidableEq

/-- The observable outcome of the directory loop of main: os.Exit(1) on a
ReadDir failure, a runtime panic escaping from ParseFileForImports, or
normal completion with the accumulated packages and errors. -/
inductive RunRes where
  | fatalDirError (d : String)
  | panickedRun
  | done (pkgs : List Package) (errs : List MainErr)
deriving DecidableEq

/-- The filesystem the program runs against: os.ReadDir (none = listing
error) and os.Open composed with reading all lines (none = open error). -/
structure FS where
  readDir : String → Option (List DirEntry)
  openFile : String → Option (List String)

/-- The file-opening loop of main (src/main.go lines 69-76): the files that
opened successfully, in order, paired with their contents. -/
def openedFiles (fs : FS) (d : String) (entries : List DirEntry) : List GoFile :=
  (GetGoFiles d entries).filterMap (fun g => (fs.openFile g).map (fun ls => GoFile.mk g ls))

/-- The open errors recorded by the file-opening loop of main, in order. -/
def openErrs (fs : FS) (d : String) (entries : List DirEntry) : List MainErr :=
  ((GetGoFiles d entries).filter (fun g => (fs.openFile g).isNone)).map MainErr.openFail

/-- Model of the dedup append of main (src/main.go lines 93-97): append each
new import not already present, keeping first-seen order. -/
def dedupAppend (imps : List String) : List String → List String
  | [] => imps
  | s :: ss => if s ∈ imps then dedupAppend imps ss else dedupAppend (imps ++ [s]) ss

/-- The import-gathering loop of main (src/main.go lines 86-98). Each file
already had its first line consumed by GetPackageName, hence the drop 1.
A ParseFileForImports error is recorded and that file is skipped; a panic
aborts the program (Except.error). -/
def collectImports : List GoFile → List String → List MainErr →
    Except Unit (List String × List MainErr)
  | [], imps, ierrs => .ok (imps, ierrs)
  | f :: fsRest, imps, ierrs =>
    match ParseFileForImports (f.lines.drop 1) with
    | .panicked => .error ()
    | .ret i none => collectImports fsRest (dedupAppend imps i) ierrs
    | .ret _ (some _) => collectImports fsRest imps (ierrs ++ [.importRead])

/-- Embedding of the directory loop of main (src/main.go lines 55-101):
a ReadDir failure prints and exits the whole program; every other failure
is recorded in errs and skips only the directory at hand. -/
def mainLoop (fs : FS) : List String → List Package → List MainErr → RunRes
  | [], pkgs, errs => .done pkgs errs
  | d :: ds, pkgs, errs =>
    match fs.readDir d with
    | none => .fatalDirError d
    | some entries =>
      if GetGoFiles d entries = [] then
        mainLoop fs ds pkgs (errs ++ [.noGoFiles d])
      else
        match GetPackageName ⟨d, openedFiles fs d entries⟩ with
        | .error e => mainLoop fs ds pkgs ((errs ++ openErrs fs d entries) ++ [.pkg e])
        | .ok pn =>
          match collectImports (openedFiles fs d entries) [] [] with
          | .error _ => .panickedRun
          | .ok (imps, ierrs) =>
            mainLoop fs ds (pkgs ++ [⟨pn, imps⟩]) ((errs ++ openErrs fs d entries) ++ ierrs)

/-- C1 counterexample: on the exact input of the claim — a single-line
fmt import followed by five blank lines — ParseFileForImports does not
return the one-element list [fmt]: blank lines skip the stop test, so the
scanner attempts a sixth read, which fails at end of input, and the
function returns (nil, error). -/
theorem c1_counterexample :
    ParseFileForImports ["import \"fmt\"", "", "", "", "", ""] =
      GoRes.ret [] (some ReadErr.eof) ∧
    GoRes.ret [] (some ReadErr.eof) ≠ GoRes.ret ["fmt"] none := by
  constructor
  · decide
  · decide

/-- C1 amended: on import \"fmt\" followed by five blank lines the extractor
reads past the blanks; at end of input it returns (nil, read error), and
when a non-blank non-import line follows instead, it stops there and
returns the single import with its quote characters retained. -/
theorem c1_amended_thm :
    ParseFileForImports ["import \"fmt\"", "", "", "", "", ""] =
      GoRes.ret [] (some ReadErr.eof) ∧
    ParseFileForImports ["import \"fmt\"", "", "", "", "", "", "var x = 1"] =
      GoRes.ret ["\"fmt\""] none := by
  constructor
  · decide
  · decide

/-- C2 counterexample: the counter is not a count of consecutive
uninformative lines. After four uninformative lines, an import line, and
one more uninformative line, the scanner stops (cumulative count 5) and
never reads the later import \"os\" line, which the claimed consecutive
semantics would have reached. -/
theorem c2_counterexample :
    ParseFileForImports
        ["a1", "a2", "a3", "a4", "import \"fmt\"", "a5", "import \"os\"", "a6", "a7"] =
      GoRes.ret ["\"fmt\""] none ∧
    ¬ ParseFileForImports
        ["a1", "a2", "a3", "a4", "import \"fmt\"", "a5", "import \"os\"", "a6", "a7"] =
      GoRes.ret ["\"fmt\"", "\"os\""] none := by
  constructor
  · decide
  · decide

/-- C2 amended: the counter is cumulative and never reset. A single-import
line leaves the counter exactly as it was (neither cleared nor
incremented); a blank line increments it without running the stop test;
and scanning stops at the first non-blank non-import line that brings the
cumulative total to five or more. -/
theorem c2_amended_thm :
    (∀ (ls : List String) (n : Nat) (acc : List String),
      scanGo ("import \"fmt\"" :: ls) (Mode.top n) acc =
        scanGo ls (Mode.top n) (acc ++ ["\"fmt\""])) ∧
    (∀ (ls : List String) (n : Nat) (acc : List String),
      scanGo ("" :: ls) (Mode.top n) acc = scanGo ls (Mode.top (n + 1)) acc) ∧
    (∀ (ls : List String) (n : Nat) (acc : List String), 4 ≤ n →
      scanGo ("x" :: ls) (Mode.top n) acc = GoRes.ret acc none) := by
  refine ⟨fun ls n acc => rfl, fun ls n acc => rfl, fun ls n acc h => ?_⟩
  have hstep : scanGo ("x" :: ls) (Mode.top n) acc =
      if n + 1 ≥ 5 then GoRes.ret acc none else scanGo ls (Mode.top (n + 1)) acc := rfl
  rw [hstep, if_pos (by omega)]

/-- C2 amended, witness: with the counter already at 4, the non-blank
uninformative line x stops the scan at once. -/
theorem c2_amended_witness :
    scanGo ["x"] (Mode.top 4) [] = GoRes.ret [] none :=
  c2_amended_thm.2.2 [] 4 [] (by omega)

/-- C3: on a single-import line, src/main.go appends split[1] verbatim, so
the extracted string keeps its surrounding quote characters, while the
part_000 variant strips them as the claim states. -/
theorem c3_eval_thm :
    ParseFileForImports ["import \"fmt\"", "a1", "a2", "a3", "a4", "a5"] =
      GoRes.ret ["\"fmt\""] none ∧
    ParseFileForImportsV0 ["import \"fmt\"", "a1", "a2", "a3", "a4", "a5"] =
      GoRes.ret ["fmt"] none := by
  constructor
  · decide
  · decide

/-- C6: on the block-import line x, a token too short to carry two quote
characters, src/main.go evaluates the slice x[1:0] and panics instead of
reporting a malformed-import-line error. -/
theorem c6_eval_thm :
    ParseFileForImports ["import (", "x", ")"] = GoRes.panicked := by
  decide

/-- C7: the block import ( \"a\" / foo \"b\" / ) yields [a, b] in order:
the full scan returns them once the stop heuristic fires, a one-token
block line contributes its first token and a two-token line its second
(alias form resolves to the path), each with quotes stripped, and blank
lines inside a block are skipped. -/
theorem c7_thm :
    ParseFileForImports
        ["import (", "\t\"a\"", "\tfoo \"b\"", ")", "v1", "v2", "v3", "v4", "v5"] =
      GoRes.ret ["a", "b"] none ∧
    (∀ (ls : List String) (n : Nat) (acc : List String),
      scanGo ("\t\"a\"" :: ls) (Mode.blk n) acc = scanGo ls (Mode.blk n) (acc ++ ["a"])) ∧
    (∀ (ls : List String) (n : Nat) (acc : List String),
      scanGo ("\tfoo \"b\"" :: ls) (Mode.blk n) acc = scanGo ls (Mode.blk n) (acc ++ ["b"])) ∧
    (∀ (ls : List String) (n : Nat) (acc : List String),
      scanGo ("" :: ls) (Mode.blk n) acc = scanGo ls (Mode.blk n) acc) := by
  refine ⟨by decide, fun ls n acc => rfl, fun ls n acc => rfl, fun ls n acc => rfl⟩

/-- C9: whenever the next read fails — the line source is exhausted — the
failure is propagated as an error, from the top-level loop for any counter
value, from inside a block, and in particular from a file that ends inside
an unterminated import block. -/
theorem c9_thm :
    (∀ (n : Nat) (acc : List String),
      scanGo [] (Mode.top n) acc = GoRes.ret [] (some ReadErr.eof)) ∧
    (∀ (n : Nat) (acc : List String),
      scanGo [] (Mode.blk n) acc = GoRes.ret [] (some ReadErr.eof)) ∧
    ParseFileForImports ["package main", "import (", "\t\"fmt\""] =
      GoRes.ret [] (some ReadErr.eof) := by
  refine ⟨fun n acc => rfl, fun n acc => rfl, by decide⟩

/-- Every error return of the scanning loops carries a nil import list:
both return-nil-err sites discard whatever was already extracted. -/
theorem scanGo_err_imports_nil :
    ∀ (ls : List String) (m : Mode) (acc imps : List String) (e : ReadErr),
      scanGo ls m acc = GoRes.ret imps (some e) → imps = [] := by
  intro ls
  induction ls with
  | nil =>
    intro m acc imps e h
    rw [show scanGo [] m acc = GoRes.ret [] (some ReadErr.eof) from rfl] at h
    injection h with h1 h2
    exact h1.symm
  | cons l ls ih =>
    intro m acc imps e h
    cases m with
    | top n =>
      simp only [scanGo] at h
      repeat' split at h
      all_goals first
        | exact ih _ _ _ _ h
        | simp at h
    | blk n =>
      simp only [scanGo] at h
      repeat' split at h
      all_goals first
        | exact ih _ _ _ _ h
        | simp at h

/-- C10: whenever ParseFileForImports returns with a non-nil error, the
returned import list is nil — already-extracted imports are discarded. -/
theorem c10_thm (lines imps : List String) (e : ReadErr)
    (h : ParseFileForImports lines = GoRes.ret imps (some e)) : imps = [] :=
  scanGo_err_imports_nil lines (Mode.top 0) [] imps e h

/-- C10 witness: the empty source returns (nil, read error), and the theorem
applies there. -/
theorem c10_witness :
    ParseFileForImports [] = GoRes.ret [] (some ReadErr.eof) ∧ ([] : List String) = [] :=
  ⟨rfl, c10_thm [] [] ReadErr.eof rfl⟩

/-- C4 counterexample: FilterDependencies uses a substring containment test,
not a leading-match test: with noStd set and an unresolvable path in which
golang.org/x/ occurs only in a non-leading position, the path is dropped,
while the claim requires it to be kept. -/
theorem c4_counterexample :
    FilterDependencies (fun _ => none) ["github.com/mirror/golang.org/x/tools"] false true = [] ∧
    ([] : List String) ≠ ["github.com/mirror/golang.org/x/tools"] := by
  constructor
  · rfl
  · decide

/-- A concrete lookup for the spec example: fmt resolves inside the root
installation; every other path fails to resolve. -/
def stdLookupEx : String → Option Bool :=
  fun s => if s = "fmt" then some true else none

/-- C4 amended: with noStd set, a path is excluded exactly when it contains
golang.org/x/ as a substring anywhere, or the toolchain lookup succeeds
and reports the root installation; lookup failures keep the path unless
the substring test drops it. The spec example evaluates as stated. -/
theorem c4_amended_thm :
    (∀ (lookup : String → Option Bool) (deps : List String) (ext : Bool),
      FilterDependencies lookup deps ext true =
        deps.filter (fun d => !(strContains d "golang.org/x/" || (lookup d).getD false))) ∧
    FilterDependencies stdLookupEx
        ["fmt", "golang.org/x/tools", "github.com/acme/widget"] false true =
      ["github.com/acme/widget"] := by
  constructor
  · intro lookup deps ext
    induction deps with
    | nil => rfl
    | cons d ds ih =>
      rcases Bool.eq_false_or_eq_true (strContains d "golang.org/x/") with h1 | h1 <;>
        rcases Bool.eq_false_or_eq_true ((lookup d).getD false) with h2 | h2 <;>
        simp [FilterDependencies, h1, h2, ih, List.filter_cons]
  · rfl

/-- Filesystem with an unreadable directory a and a readable directory b
holding one well-formed file. -/
def fsC5 : FS where
  readDir := fun s => if s = "b" then some [⟨"f.go", false⟩] else none
  openFile := fun s =>
    if s = "b/f.go" then some ["package b", "q1", "q2", "q3", "q4", "q5"] else none

/-- Filesystem with a directory p whose file has a malformed package line
and a well-formed directory q. -/
def fsC5b : FS where
  readDir := fun s =>
    if s = "p" then some [⟨"m.go", false⟩]
    else if s = "q" then some [⟨"n.go", false⟩] else none
  openFile := fun s =>
    if s = "p/m.go" then some ["bad line here"]
    else if s = "q/n.go" then some ["package q", "z1", "z2", "z3", "z4", "z5"] else none

/-- Filesystem with a readable directory containing no entries at all. -/
def fsEmptyDir : FS where
  readDir := fun _ => some []
  openFile := fun _ => none

/-- C5 counterexample: a failure to list the first directory aborts the
whole run with exit 1 — the second directory, which on its own produces a
package, is never processed. -/
theorem c5_counterexample :
    mainLoop fsC5 ["a", "b"] [] [] = RunRes.fatalDirError "a" ∧
    mainLoop fsC5 ["b"] [] [] = RunRes.done [⟨"b", []⟩] [] := by
  constructor
  · decide
  · decide

/-- C5 amended: a directory-listing failure is fatal to the entire run,
while the other per-directory failures are recorded and skip only that
directory: a directory without source files is recorded and the loop goes
on, and a directory whose package resolution fails is recorded while the
following directory is still processed. -/
theorem c5_amended_thm :
    (∀ (fs : FS) (d : String) (ds : List String) (pkgs : List Package) (errs : List MainErr),
      fs.readDir d = none → mainLoop fs (d :: ds) pkgs errs = RunRes.fatalDirError d) ∧
    (∀ (fs : FS) (d : String) (ds : List String) (pkgs : List Package) (errs : List MainErr)
        (entries : List DirEntry),
      fs.readDir d = some entries → GetGoFiles d entries = [] →
      mainLoop fs (d :: ds) pkgs errs = mainLoop fs ds pkgs (errs ++ [MainErr.noGoFiles d])) ∧
    mainLoop fsC5b ["p", "q"] [] [] =
      RunRes.done [⟨"q", []⟩] [MainErr.pkg (PkgErr.malformed "bad line here" "p/m.go")] := by
  refine ⟨?_, ?_, by decide⟩
  · intro fs d ds pkgs errs h
    rw [mainLoop, h]
  · intro fs d ds pkgs errs entries h hg
    rw [mainLoop, h]
    exact if_pos hg

/-- C5 amended, witness: the listing failure on directory a is fatal, and an
entry-less directory is recorded as lacking source files while the loop
moves on. -/
theorem c5_amended_witness :
    mainLoop fsC5 ["a"] [] [] = RunRes.fatalDirError "a" ∧
    mainLoop fsEmptyDir ["e"] [] [] = mainLoop fsEmptyDir [] [] [MainErr.noGoFiles "e"] :=
  ⟨c5_amended_thm.1 fsC5 "a" [] [] [] rfl,
   c5_amended_thm.2.1 fsEmptyDir "e" [] [] [] [] rfl rfl⟩

/-- A file declares the package name nm when its first line splits into
exactly the two fields package and nm. -/
def declaresPkg (f : GoFile) (nm : String) : Prop :=
  ∃ l rest, f.lines = l :: rest ∧ fields l = ["package", nm]

/-- The inserted name is a member of the result of insertSeen. -/
theorem insertSeen_self (seen : List String) (nm : String) : nm ∈ insertSeen seen nm := by
  unfold insertSeen
  split
  next h => exact h
  next h => exact List.mem_cons_self nm seen

/-- insertSeen preserves the members already present. -/
theorem insertSeen_mono (seen : List String) (nm x : String) (h : x ∈ seen) :
    x ∈ insertSeen seen nm := by
  unfold insertSeen
  split
  next => exact h
  next => exact List.mem_cons_of_mem nm h

/-- Inserting the same name twice changes nothing. -/
theorem insertSeen_idem (seen : List String) (nm : String) :
    insertSeen (insertSeen seen nm) nm = insertSeen seen nm :=
  if_pos (insertSeen_self seen nm)

/-- One step of the GetPackageName loop on a file declaring nm. -/
theorem getPkgAux_step (dn : String) (f : GoFile) (fsRest : List GoFile)
    (seen : List String) (pn : String) (l : String) (rest : List String) (nm : String)
    (hl : f.lines = l :: rest) (hf : fields l = ["package", nm]) :
    getPkgAux dn (f :: fsRest) seen pn = getPkgAux dn fsRest (insertSeen seen nm) nm := by
  simp [getPkgAux, hl, hf]

/-- Running the loop over files that all declare the same name X lands in
the post-loop checks with exactly X inserted into seen. -/
theorem getPkgAux_const (dn X : String) :
    ∀ (files : List GoFile) (seen : List String) (pn : String),
      files ≠ [] → (∀ f ∈ files, declaresPkg f X) →
      getPkgAux dn files seen pn = finishPkg dn (insertSeen seen X) X := by
  intro files
  induction files with
  | nil => intro seen pn h _; exact absurd rfl h
  | cons f fsRest ih =>
    intro seen pn _ hall
    obtain ⟨l, rest, hl, hf⟩ := hall f (List.mem_cons_self f fsRest)
    rw [getPkgAux_step dn f fsRest seen pn l rest X hl hf]
    cases fsRest with
    | nil => rfl
    | cons g gs =>
      rw [ih (insertSeen seen X) X (by simp) (fun f hmem => hall f (List.mem_cons_of_mem _ hmem)),
        insertSeen_idem]

/-- Running the loop over well-formed files extends seen with every
declared name. -/
theorem getPkgAux_allWF (dn : String) :
    ∀ (files : List GoFile) (seen : List String) (pn : String),
      (∀ f ∈ files, ∃ nm, declaresPkg f nm) →
      ∃ seen2 pn2, getPkgAux dn files seen pn = finishPkg dn seen2 pn2 ∧
        (∀ x, x ∈ seen → x ∈ seen2) ∧
        (∀ f nm, f ∈ files → declaresPkg f nm → nm ∈ seen2) := by
  intro files
  induction files with
  | nil =>
    intro seen pn _
    exact ⟨seen, pn, rfl, fun x h => h, fun f nm h _ => absurd h (List.not_mem_nil f)⟩
  | cons f fsRest ih =>
    intro seen pn hall
    obtain ⟨nm0, l, rest, hl, hf⟩ := hall f (List.mem_cons_self f fsRest)
    obtain ⟨seen2, pn2, heq, hmono, hdecl⟩ :=
      ih (insertSeen seen nm0) nm0 (fun g hmem => hall g (List.mem_cons_of_mem _ hmem))
    refine ⟨seen2, pn2, ?_, ?_, ?_⟩
    · rw [getPkgAux_step dn f fsRest seen pn l rest nm0 hl hf, heq]
    · exact fun x hx => hmono x (insertSeen_mono seen nm0 x hx)
    · intro g nm hmem hd
      rcases List.mem_cons.mp hmem with hg | hg
      · subst hg
        obtain ⟨l2, rest2, hl2, hf2⟩ := hd
        rw [hl] at hl2
        injection hl2 with hll _
        rw [hll] at hf
        rw [hf] at hf2
        injection hf2 with _ htail
        injection htail with hnm _
        rw [← hnm]
        exact hmono nm0 (insertSeen_self seen nm0)
      · exact hdecl g nm hg hd

/-- A file whose first line is not a two-field package declaration makes
the loop fail with the malformed error, whatever well-formed files come
before it and whatever comes after. -/
theorem getPkgAux_malformed (dn : String) (f : GoFile) (l : String) (rest : List String)
    (hl : f.lines = l :: rest) (hmal : ∀ nm, fields l ≠ ["package", nm]) :
    ∀ (pre : List GoFile) (post : List GoFile) (seen : List String) (pn : String),
      (∀ g ∈ pre, ∃ nm, declaresPkg g nm) →
      getPkgAux dn (pre ++ f :: post) seen pn =
        Except.error (PkgErr.malformed l f.name) := by
  intro pre
  induction pre with
  | nil =>
    intro post seen pn _
    rcases hfl : fields l with _ | ⟨kw, _ | ⟨nm, _ | ⟨c, tl⟩⟩⟩
    · simp [getPkgAux, hl, hfl]
    · simp [getPkgAux, hl, hfl]
    · have hne : ¬ kw = "package" := fun hkw => hmal nm (by rw [hfl, hkw])
      simp [getPkgAux, hl, hfl, hne]
    · simp [getPkgAux, hl, hfl]
  | cons g pre ih =>
    intro post seen pn hwf
    obtain ⟨nm0, l0, rest0, hl0, hf0⟩ := hwf g (List.mem_cons_self g pre)
    rw [List.cons_append, getPkgAux_step dn g (pre ++ f :: post) seen pn l0 rest0 nm0 hl0 hf0]
    exact ih post (insertSeen seen nm0) nm0 (fun g2 hmem => hwf g2 (List.mem_cons_of_mem _ hmem))

/-- Two distinct members force a list length of at least two. -/
theorem two_le_length_of_mem_ne (l : List String) (x y : String)
    (hx : x ∈ l) (hy : y ∈ l) (hne : x ≠ y) : 2 ≤ l.length := by
  have h1 : y ∈ l.erase x := (List.mem_erase_of_ne (Ne.symm hne)).mpr hy
  have h2 : (l.erase x).length = l.length - 1 := List.length_erase_of_mem hx
  have h3 : 0 < (l.erase x).length := List.length_pos_of_mem h1
  have h4 : 0 < l.length := List.length_pos_of_mem hx
  omega

/-- C8: GetPackageName returns X when every file opens with the two tokens
package X; a first line that is not exactly two fields with leading token
package (after any well-formed files) yields the malformed-line error; an
empty file set yields the could-not-find-a-package error; and well-formed
files declaring two distinct names yield the conflicting-packages error. -/
theorem c8_thm :
    (∀ (d : Directory) (X : String), d.files ≠ [] →
      (∀ f ∈ d.files, declaresPkg f X) → GetPackageName d = Except.ok X) ∧
    (∀ (dn : String) (pre : List GoFile) (f : GoFile) (post : List GoFile)
        (l : String) (rest : List String),
      (∀ g ∈ pre, ∃ nm, declaresPkg g nm) → f.lines = l :: rest →
      (∀ nm, fields l ≠ ["package", nm]) →
      GetPackageName ⟨dn, pre ++ f :: post⟩ = Except.error (PkgErr.malformed l f.name)) ∧
    (∀ dn : String, GetPackageName ⟨dn, []⟩ = Except.error (PkgErr.noPackage dn)) ∧
    (∀ (d : Directory) (X Y : String) (fX gY : GoFile),
      (∀ f ∈ d.files, ∃ nm, declaresPkg f nm) →
      fX ∈ d.files → declaresPkg fX X → gY ∈ d.files → declaresPkg gY Y → X ≠ Y →
      GetPackageName d = Except.error (PkgErr.conflict d.name)) := by
  refine ⟨?_, ?_, fun dn => rfl, ?_⟩
  · intro d X hne hall
    rw [GetPackageName, getPkgAux_const d.name X d.files [] "" hne hall]
    have hins : insertSeen [] X = [X] := by simp [insertSeen]
    rw [hins]
    simp [finishPkg]
  · intro dn pre f post l rest hwf hl hmal
    exact getPkgAux_malformed dn f l rest hl hmal pre post [] "" hwf
  · intro d X Y fX gY hall hmX hdX hmY hdY hne
    obtain ⟨seen2, pn2, heq, _, hdecl⟩ := getPkgAux_allWF d.name d.files [] "" hall
    rw [GetPackageName, heq]
    have hX : X ∈ seen2 := hdecl fX X hmX hdX
    have hY : Y ∈ seen2 := hdecl gY Y hmY hdY
    have h2 : 2 ≤ seen2.length := two_le_length_of_mem_ne seen2 X Y hX hY hne
    rw [finishPkg, if_neg (by omega), if_neg (by omega)]

/-- C8 witness: concrete directories exercising each conjunct — agreement on
package main, a malformed second file, the empty file set, and two files
declaring distinct names. -/
theorem c8_witness :
    GetPackageName ⟨"d1", [⟨"a.go", ["package main", "import \"fmt\""]⟩,
        ⟨"b.go", ["package main"]⟩]⟩ = Except.ok "main" ∧
    GetPackageName ⟨"d2", [⟨"a.go", ["package a"]⟩, ⟨"b.go", ["wrong line here"]⟩]⟩ =
      Except.error (PkgErr.malformed "wrong line here" "b.go") ∧
    GetPackageName ⟨"d3", []⟩ = Except.error (PkgErr.noPackage "d3") ∧
    GetPackageName ⟨"d4", [⟨"a.go", ["package a"]⟩, ⟨"b.go", ["package b"]⟩]⟩ =
      Except.error (PkgErr.conflict "d4") := by
  refine ⟨?_, ?_, c8_thm.2.2.1 "d3", ?_⟩
  · refine c8_thm.1 _ "main" (by simp) ?_
    intro f hf
    rcases List.mem_cons.mp hf with rfl | hf2
    · exact ⟨"package main", ["import \"fmt\""], rfl, by decide⟩
    rcases List.mem_cons.mp hf2 with rfl | hf3
    · exact ⟨"package main", [], rfl, by decide⟩
    · exact absurd hf3 (List.not_mem_nil f)
  · refine c8_thm.2.1 "d2" [⟨"a.go", ["package a"]⟩] ⟨"b.go", ["wrong line here"]⟩ []
      "wrong line here" [] ?_ rfl ?_
    · intro g hg
      rcases List.mem_cons.mp hg with rfl | hg2
      · exact ⟨"a", "package a", [], rfl, by decide⟩
      · exact absurd hg2 (List.not_mem_nil g)
    · intro nm h
      have h0 : fields "wrong line here" = ["wrong", "line", "here"] := by decide
      rw [h0] at h
      injection h with h1 _
      exact absurd h1 (by decide)
  · refine c8_thm.2.2.2 _ "a" "b" ⟨"a.go", ["package a"]⟩ ⟨"b.go", ["package b"]⟩ ?_
      (by simp) ⟨"package a", [], rfl, by decide⟩ (by simp)
      ⟨"package b", [], rfl, by decide⟩ (by decide)
    intro f hf
    rcases List.mem_cons.mp hf with rfl | hf2
    · exact ⟨"a", "package a", [], rfl, by decide⟩
    rcases List.mem_cons.mp hf2 with rfl | hf3
    · exact ⟨"b", "package b", [], rfl, by decide⟩
    · exact absurd hf3 (List.not_mem_nil f)

end Wuw
